import Mathlib

/-!
Shallow embedding of the msiparse tool (src/src/main.rs) and of the
container-level operations it delegates to its MSI/CFB support code,
together with proofs of the specified properties.

Strings are embedded as `List Char` (the tool iterates over Rust `char`s);
raw stream payloads are `List Nat` (bytes); MSI compressed stream names are
`List Nat` (Unicode code points).
-/

namespace Msiparse

/-- Embedding of Rust `char::is_ascii_graphic`: printable ASCII other than
space, i.e. code points 0x21 through 0x7E. -/
def is_ascii_graphic (c : Char) : Bool :=
  0x21 ≤ c.toNat && c.toNat ≤ 0x7E

/-- Embedding of Rust `char::is_ascii_whitespace`: space, horizontal tab,
line feed, form feed or carriage return. -/
def is_ascii_whitespace (c : Char) : Bool :=
  c.toNat = 0x20 || c.toNat = 0x9 || c.toNat = 0xA || c.toNat = 0xC || c.toNat = 0xD

/-- Embedding of Rust `char::is_control`: the Unicode Cc category,
code points 0x00-0x1F and 0x7F-0x9F. -/
def is_control (c : Char) : Bool :=
  c.toNat < 0x20 || (0x7F ≤ c.toNat && c.toNat ≤ 0x9F)

/-- Embedding of `sanitize_stream_name` (src/src/main.rs lines 13-18):
keeps exactly the characters that are ASCII graphic or ASCII whitespace. -/
def sanitize_stream_name (name : List Char) : List Char :=
  name.filter (fun c => is_ascii_graphic c || is_ascii_whitespace c)

/-- Embedding of the constant `DIGITAL_SIGNATURE_STREAM_NAME`:
the reserved stream name "\u{5}DigitalSignature". -/
def DIGITAL_SIGNATURE_STREAM_NAME : List Char :=
  Char.ofNat 5 :: "DigitalSignature".toList

/-- Embedding of the constant `MSI_DIGITAL_SIGNATURE_EX_STREAM_NAME`:
the reserved stream name "\u{5}MsiDigitalSignatureEx". -/
def MSI_DIGITAL_SIGNATURE_EX_STREAM_NAME : List Char :=
  Char.ofNat 5 :: "MsiDigitalSignatureEx".toList

/-- A CFB container as seen by this tool: the named streams reachable at the
container root, each with its byte payload. -/
structure CfbContainer where
  streams : List (List Char × List Nat)
deriving DecidableEq

/-- Embedding of `cfb::CompoundFile::open_stream` on an opened container:
the payload of the first root stream with the given name, if any. -/
def openStreamBytes (c : CfbContainer) (name : List Char) : Option (List Nat) :=
  (c.streams.find? (fun p => p.1 == name)).map (fun p => p.2)

/-- Embedding of `cfb::CompoundFile::exists`: in this model a stream exists
exactly when opening it succeeds. -/
def cfbExists (c : CfbContainer) (name : List Char) : Bool :=
  (openStreamBytes c name).isSome

/-- Embedding of `extract_cfb_stream` (src/src/main.rs lines 21-50), with the
plain file I/O abstracted away: on success the payload is written out under
the sanitized stream name, so the observable result is the pair of the
sanitized output name and the payload bytes. -/
def extract_cfb_stream (c : CfbContainer) (name : List Char) :
    Option (List Char × List Nat) :=
  (openStreamBytes c name).map (fun bytes => (sanitize_stream_name name, bytes))

/-- Observable outcome of `extract_certificate`: whether the tool reported the
package as signed, and the payloads it extracted (output name, bytes). -/
structure CertificateReport where
  signed : Bool
  extracted : List (List Char × List Nat)
deriving DecidableEq

/-- Embedding of `extract_certificate` (src/src/main.rs lines 98-122) on a
successfully opened container: it tests both reserved stream names with
`exists`, reports the package signed when either is present, and extracts
each present signature stream. Absence of both is a normal return, not an
error. -/
def extract_certificate (c : CfbContainer) : CertificateReport :=
  let has_signature := cfbExists c DIGITAL_SIGNATURE_STREAM_NAME
  let has_signature_ex := cfbExists c MSI_DIGITAL_SIGNATURE_EX_STREAM_NAME
  if has_signature || has_signature_ex then
    { signed := true
      extracted :=
        (if has_signature then
          (extract_cfb_stream c DIGITAL_SIGNATURE_STREAM_NAME).toList
        else []) ++
        (if has_signature_ex then
          (extract_cfb_stream c MSI_DIGITAL_SIGNATURE_EX_STREAM_NAME).toList
        else []) }
  else
    { signed := false, extracted := [] }

/-- Modelled from the spec: the `msi` library's `Package::has_digital_signature`
is not part of src/; per §4.9 and §6(d) of the spec, the package is signed
exactly when either reserved signature stream is present at the container
root. -/
def has_digital_signature (c : CfbContainer) : Bool :=
  cfbExists c DIGITAL_SIGNATURE_STREAM_NAME ||
  cfbExists c MSI_DIGITAL_SIGNATURE_EX_STREAM_NAME

/-- Interface of the `msi` library's `SummaryInfo` as consumed by
`get_metadata`: each well-known property is either present with its decoded
value or absent. Decoded string renderings (uuid hyphenation, time
formatting) are kept opaque as character lists. -/
structure SummaryInfo where
  title : Option (List Char)
  subject : Option (List Char)
  author : Option (List Char)
  uuid : Option (List Char)
  arch : Option (List Char)
  languages : List (List Char)
  creation_time : Option (List Char)
  creating_application : Option (List Char)
  codepage_name : List Char
  codepage_id : List Char
  word_count : Option Int
  comments : Option (List Char)
deriving DecidableEq

/-- A value of an MSI table cell as produced by the `msi` library. -/
inductive MsiValue
  | null : MsiValue
  | int : Int → MsiValue
  | str : List Char → MsiValue
deriving DecidableEq

/-- A table as exposed by the `msi` library to `list_tables`: its name, its
ordered column names, and its rows of typed values in on-disk order. -/
structure MsiLibTable where
  name : List Char
  columns : List (List Char)
  rows : List (List MsiValue)
deriving DecidableEq

/-- An opened MSI package as consumed by the tool: the underlying container,
the decoded summary-information stream, the decoded tables, and the
enumerable stream names. -/
structure MsiPackage where
  container : CfbContainer
  summary : SummaryInfo
  tables : List MsiLibTable
  stream_names : List (List Char)
deriving DecidableEq

/-- Embedding of the `MsiMetaData` struct (src/src/main.rs lines 190-205). -/
structure MsiMetaData where
  title : List Char
  subject : List Char
  author : List Char
  uuid : List Char
  arch : List Char
  languages : List (List Char)
  created_at : List Char
  created_with : List Char
  is_signed : Bool
  codepage : List Char
  codepage_id : List Char
  word_count : Int
  comments : List Char
deriving DecidableEq

/-- Embedding of `MsiMetaData::default` (src/src/main.rs lines 207-225):
every string field empty, `is_signed` false and `word_count` the sentinel -1. -/
def MsiMetaData.default : MsiMetaData where
  title := []
  subject := []
  author := []
  uuid := []
  arch := []
  languages := []
  created_at := []
  created_with := []
  is_signed := false
  codepage := []
  codepage_id := []
  word_count := -1
  comments := []

/-- Embedding of `get_metadata` (src/src/main.rs lines 229-291), statement by
statement. Note that the source's author branch assigns the decoded author
value to `meta.title`, not to `meta.author`, and that the creating
application branch is duplicated; both are reproduced here as written. -/
def get_metadata (p : MsiPackage) : MsiMetaData :=
  let meta := MsiMetaData.default
  let meta := match p.summary.title with
    | some t => { meta with title := t }
    | none => meta
  let meta := match p.summary.subject with
    | some s => { meta with subject := s }
    | none => meta
  let meta := match p.summary.author with
    | some a => { meta with title := a }
    | none => meta
  let meta := match p.summary.uuid with
    | some u => { meta with uuid := u }
    | none => meta
  let meta := match p.summary.arch with
    | some a => { meta with arch := a }
    | none => meta
  let meta := { meta with languages := p.summary.languages }
  let meta := match p.summary.creation_time with
    | some t => { meta with created_at := t }
    | none => meta
  let meta := match p.summary.creating_application with
    | some a => { meta with created_with := a }
    | none => meta
  let meta := match p.summary.creating_application with
    | some a => { meta with created_with := a }
    | none => meta
  let meta := { meta with
    is_signed := has_digital_signature p.container
    codepage := p.summary.codepage_name
    codepage_id := p.summary.codepage_id }
  let meta := match p.summary.word_count with
    | some w => { meta with word_count := w }
    | none => meta
  let meta := match p.summary.comments with
    | some c => { meta with comments := c }
    | none => meta
  meta

/-- Outcome of the hard process abort in `dump_stream`: the source calls
`io::copy(...).expect(...)`, which panics when the copy itself fails. -/
inductive ExtractAbort
  | copyAbort : ExtractAbort
deriving DecidableEq

/-- File-system and package behaviour seen by `dump_stream` for one run:
whether `Package::read_stream` succeeds for a stream name, whether
`File::create` succeeds on the sanitized output path, and whether the
subsequent `io::copy` succeeds. -/
structure StreamFS where
  readable : List Char → Bool
  creatable : List Char → Bool
  copy_ok : List Char → Bool

/-- Embedding of `dump_stream` (src/src/main.rs lines 54-76): a failed
`read_stream` returns false (stream skipped); a failed `File::create` on the
sanitized path returns false (stream skipped); a failure inside `io::copy`
panics (`expect`), which aborts the whole process and is modelled as an
`ExtractAbort` error. -/
def dump_stream (fs : StreamFS) (name : List Char) : Except ExtractAbort Bool :=
  if fs.readable name then
    if fs.creatable (sanitize_stream_name name) then
      if fs.copy_ok name then Except.ok true
      else Except.error ExtractAbort.copyAbort
    else Except.ok false
  else Except.ok false

/-- Embedding of `extractall` (src/src/main.rs lines 80-87): calls
`dump_stream` on every enumerated stream name in order, ignoring the boolean
result; a panic inside `dump_stream` propagates and aborts the remaining
iterations. The result records the per-stream outcomes in order. -/
def extractall (fs : StreamFS) : List (List Char) → Except ExtractAbort (List Bool)
  | [] => Except.ok []
  | n :: ns =>
    match dump_stream fs n with
    | Except.error e => Except.error e
    | Except.ok b =>
      match extractall fs ns with
      | Except.error e => Except.error e
      | Except.ok bs => Except.ok (b :: bs)

/-- Embedding of Rust `str::trim_matches('"')`: removes every leading and
trailing double-quote character. -/
def trimQuotes (s : List Char) : List Char :=
  ((s.dropWhile (fun c => c == '"')).reverse.dropWhile (fun c => c == '"')).reverse

/-- Rendering of one `msi::Value` as done in `list_tables`
(`row[index].to_string().trim_matches('"')`): the library displays a null as
the empty string, an integer in decimal, and a string wrapped in quotes;
the tool then trims the quotes. -/
def MsiValue.render : MsiValue → List Char
  | MsiValue.null => []
  | MsiValue.int n => (toString n).toList
  | MsiValue.str s => trimQuotes ('"' :: (s ++ ['"']))

/-- Embedding of the `MsiTable` output struct (src/src/main.rs lines 125-130). -/
structure MsiTable where
  name : List Char
  columns : List (List Char)
  rows : List (List (List Char))
deriving DecidableEq

/-- Embedding of the table-building loop of `list_tables` (src/src/main.rs
lines 134-166): for each table, the rows are the selected rows with each value
rendered to a string (the inner loop pushes one string per value index), and
the columns are the table's column names. -/
def list_tables (p : MsiPackage) : List MsiTable :=
  p.tables.map (fun t =>
    { name := t.name
      columns := t.columns
      rows := t.rows.map (fun row => row.map MsiValue.render) })

/-- Modelled from the spec: membership in the MSI identifier alphabet of
§4.4, the 64 symbols `A-Z a-z 0-9 . _`, given as a predicate on Unicode code
points. The identifier codec itself lives in the external `msi` crate, not
in src/. -/
def isMsiIdentCodePoint (c : Nat) : Bool :=
  decide ((48 ≤ c ∧ c ≤ 57) ∨ (65 ≤ c ∧ c ≤ 90) ∨ (97 ≤ c ∧ c ≤ 122) ∨
    c = 46 ∨ c = 95)

/-- Modelled from the spec: the value (0-63) of one alphabet symbol in the
64-symbol table of §4.4, digits first, then upper case, then lower case,
then `.` and `_`; `none` for a code point outside the alphabet. -/
def natToB64 (c : Nat) : Option Nat :=
  if 48 ≤ c ∧ c ≤ 57 then some (c - 48)
  else if 65 ≤ c ∧ c ≤ 90 then some (c - 55)
  else if 97 ≤ c ∧ c ≤ 122 then some (c - 61)
  else if c = 46 then some 62
  else if c = 95 then some 63
  else none

/-- Modelled from the spec: the alphabet symbol (as a code point) of one
value 0-63, the inverse direction of `natToB64`. -/
def b64ToNat (v : Nat) : Nat :=
  if v < 10 then 48 + v
  else if v < 36 then 55 + v
  else if v < 62 then 61 + v
  else if v = 62 then 46
  else 95

/-- Modelled from the spec: the body of the compressed stream-name encoding
of §4.4 (the public MSI constants): identifier characters are taken two at a
time and packed into one code point in the pair range starting at 0x3800 via
base-64 arithmetic; a trailing single character maps into the
single-character range starting at 0x4800; a character outside the alphabet
makes the name unencodable. -/
def msiEncodeBody : List Nat → Option (List Nat)
  | [] => some []
  | [c] =>
    match natToB64 c with
    | some v => some [0x4800 + v]
    | none => none
  | c1 :: c2 :: rest =>
    match natToB64 c1, natToB64 c2, msiEncodeBody rest with
    | some v1, some v2, some r => some ((0x3800 + v1 + 64 * v2) :: r)
    | _, _, _ => none

/-- Modelled from the spec: encoding of an MSI identifier as a stream name,
the marker code point 0x4840 followed by the packed body. -/
def msiEncode (name : List Nat) : Option (List Nat) :=
  (msiEncodeBody name).map (fun b => 0x4840 :: b)

/-- Modelled from the spec: the body of stream-name decoding, mapping each
code point in the pair range back to two identifier characters, each code
point in the single range back to one, and passing anything else through as
a literal character. -/
def msiDecodeBody : List Nat → List Nat
  | [] => []
  | c :: rest =>
    if 0x3800 ≤ c ∧ c < 0x4800 then
      b64ToNat ((c - 0x3800) % 64) :: b64ToNat ((c - 0x3800) / 64) ::
        msiDecodeBody rest
    else if 0x4800 ≤ c ∧ c < 0x4840 then
      b64ToNat (c - 0x4800) :: msiDecodeBody rest
    else
      c :: msiDecodeBody rest

/-- Modelled from the spec: decoding of a stream name, stripping the marker
code point if present and decoding the body. -/
def msiDecode (name : List Nat) : List Nat :=
  match name with
  | [] => []
  | m :: rest => if m = 0x4840 then msiDecodeBody rest else msiDecodeBody (m :: rest)

/-- Errors of the modelled sector-chain walker. -/
inductive CfbError
  | ChainCycle : CfbError
  | InvalidSector : CfbError
  | FuelExhausted : CfbError
deriving DecidableEq

/-- Modelled from the spec: the reserved end-of-chain sector marker of §3. -/
def ENDOFCHAIN : Nat := 0xFFFFFFFE

/-- Modelled from the spec: one bounded sector-chain traversal step of §4.1.
The FAT is the list of next-sector links indexed by sector; `visited` holds
the sectors already walked, most recent first. A revisited sector fails with
`ChainCycle`, a link outside the container fails with `InvalidSector`, and
the fuel bound makes the recursion structurally terminating. -/
def walkChainAux (fat : List Nat) : Nat → Nat → List Nat → Except CfbError (List Nat)
  | 0, _, _ => Except.error CfbError.FuelExhausted
  | fuel + 1, idx, visited =>
    if idx = ENDOFCHAIN then Except.ok visited.reverse
    else if h : idx < fat.length then
      if idx ∈ visited then Except.error CfbError.ChainCycle
      else walkChainAux fat fuel (fat.get ⟨idx, h⟩) (idx :: visited)
    else Except.error CfbError.InvalidSector

/-- Modelled from the spec: full sector-chain traversal from a starting
sector, with fuel one more than the container's sector count. -/
def walkChain (fat : List Nat) (start : Nat) : Except CfbError (List Nat) :=
  walkChainAux fat (fat.length + 1) start []

/-- Sample summary-information stream with every property absent. -/
def emptySummary : SummaryInfo where
  title := none
  subject := none
  author := none
  uuid := none
  arch := none
  languages := []
  creation_time := none
  creating_application := none
  codepage_name := []
  codepage_id := []
  word_count := none
  comments := none

/-- Sample container with no streams at all. -/
def emptyContainer : CfbContainer where
  streams := []

/-- Sample container holding only the DigitalSignature reserved stream. -/
def dsOnlyContainer : CfbContainer where
  streams := [(DIGITAL_SIGNATURE_STREAM_NAME, [1, 2, 3])]

/-- Sample package whose summary information carries an author and a title. -/
def authorPackage : MsiPackage where
  container := emptyContainer
  summary := { emptySummary with
    title := some "T".toList
    author := some "Alice".toList }
  tables := []
  stream_names := []

/-- Sample package whose summary information has no word-count property. -/
def noWordCountPackage : MsiPackage where
  container := emptyContainer
  summary := emptySummary
  tables := []
  stream_names := []

/-- Sample package whose summary information stores word count 42. -/
def wordCountPackage : MsiPackage where
  container := emptyContainer
  summary := { emptySummary with word_count := some 42 }
  tables := []
  stream_names := []

/-- Sample package over the signature-only container. -/
def dsOnlyPackage : MsiPackage where
  container := dsOnlyContainer
  summary := emptySummary
  tables := []
  stream_names := []

/-- Sample table shaped like the Feature table of the spec scenario. -/
def featureTable : MsiLibTable where
  name := "Feature".toList
  columns := ["Feature".toList, "Title".toList]
  rows := [[MsiValue.str "A".toList, MsiValue.str "B".toList],
           [MsiValue.str "C".toList, MsiValue.null]]

/-- Sample package holding the Feature table. -/
def featurePackage : MsiPackage where
  container := emptyContainer
  summary := emptySummary
  tables := [featureTable]
  stream_names := []

/-- Sample file-system behaviour where every operation succeeds. -/
def allOkFS : StreamFS where
  readable := fun _ => true
  creatable := fun _ => true
  copy_ok := fun _ => true

/-- Sample file-system behaviour where the copy of stream "A" fails. -/
def abortFS : StreamFS where
  readable := fun _ => true
  creatable := fun _ => true
  copy_ok := fun n => !(n == "A".toList)

/-- Characterization of `get_metadata` as one record, obtained by unwinding
its update chain. Note the title field: when the author property is present
its value lands in `title`, and the `author` field is never assigned. -/
theorem get_metadata_eq (p : MsiPackage) :
    get_metadata p = {
      title := p.summary.author.getD (p.summary.title.getD [])
      subject := p.summary.subject.getD []
      author := []
      uuid := p.summary.uuid.getD []
      arch := p.summary.arch.getD []
      languages := p.summary.languages
      created_at := p.summary.creation_time.getD []
      created_with := p.summary.creating_application.getD []
      is_signed := has_digital_signature p.container
      codepage := p.summary.codepage_name
      codepage_id := p.summary.codepage_id
      word_count := p.summary.word_count.getD (-1)
      comments := p.summary.comments.getD [] } := by
  obtain ⟨cont, ⟨t, s, a, u, ar, ls, ct, ca, cn, ci, wc, cm⟩, tbls, sns⟩ := p
  cases t <;> cases s <;> cases a <;> cases u <;> cases ar <;>
    cases ct <;> cases ca <;> cases wc <;> cases cm <;> rfl

/-- Claim C10 (amended): sanitize_stream_name is exactly the in-order
subsequence of the ASCII graphic and ASCII whitespace characters of its
input, it is idempotent, and its output is pure ASCII whose only control
characters are ASCII whitespace characters. -/
theorem sanitize_stream_name_spec (s : List Char) :
    sanitize_stream_name s =
      s.filter (fun c => is_ascii_graphic c || is_ascii_whitespace c) ∧
    (sanitize_stream_name s).Sublist s ∧
    sanitize_stream_name (sanitize_stream_name s) = sanitize_stream_name s ∧
    ∀ c ∈ sanitize_stream_name s,
      c.toNat ≤ 0x7E ∧ (is_control c = true → is_ascii_whitespace c = true) := by
  refine ⟨rfl, List.filter_sublist s, ?_, ?_⟩
  · simp [sanitize_stream_name, List.filter_filter]
  · intro c hc
    have h := List.of_mem_filter hc
    simp only [is_ascii_graphic, is_ascii_whitespace, Bool.or_eq_true,
      decide_eq_true_eq, Bool.and_eq_true] at h
    constructor
    · omega
    · intro hctl
      simp only [is_control, Bool.or_eq_true, decide_eq_true_eq,
        Bool.and_eq_true] at hctl
      simp only [is_ascii_whitespace, Bool.or_eq_true, decide_eq_true_eq]
      omega

/-- Claim C10 witness: the theorem applied to the single character A. -/
theorem sanitize_stream_name_spec_witness :
    ('A').toNat ≤ 0x7E ∧
    (is_control 'A' = true → is_ascii_whitespace 'A' = true) :=
  (sanitize_stream_name_spec ['A']).2.2.2 'A' (by decide)

/-- Claim C10 counterexample: the horizontal tab is ASCII whitespace, so
sanitize_stream_name keeps it, yet it is a control character; the output of
sanitize_stream_name is therefore not free of control characters. -/
theorem sanitize_stream_name_keeps_tab :
    sanitize_stream_name [Char.ofNat 9] = [Char.ofNat 9] ∧
    is_control (Char.ofNat 9) = true := by
  exact ⟨by decide, by decide⟩

/-- Claim C2: for a package whose summary information contains the author
property, get_metadata leaves the `author` field of the metadata record at
its default empty value and instead stores the decoded author value in the
`title` field (src/src/main.rs line 244 assigns `meta.title`). -/
theorem get_metadata_author_misassigned :
    (get_metadata authorPackage).author = [] ∧
    (get_metadata authorPackage).title = "Alice".toList ∧
    authorPackage.summary.author = some "Alice".toList := by
  exact ⟨by decide, by decide, by decide⟩

/-- Claim C5: the word_count field of the metadata record is the sentinel -1
when the word-count property is absent and the stored value when present. -/
theorem get_metadata_word_count (p : MsiPackage) :
    (p.summary.word_count = none → (get_metadata p).word_count = -1) ∧
    (∀ w : Int, p.summary.word_count = some w → (get_metadata p).word_count = w) := by
  rw [get_metadata_eq]
  constructor
  · intro h
    simp [h]
  · intro w h
    simp [h]

/-- Claim C5 witness: the theorem applied to a package without the word-count
property and to one storing word count 42. -/
theorem get_metadata_word_count_witness :
    (get_metadata noWordCountPackage).word_count = -1 ∧
    (get_metadata wordCountPackage).word_count = 42 :=
  ⟨(get_metadata_word_count noWordCountPackage).1 rfl,
   (get_metadata_word_count wordCountPackage).2 42 rfl⟩

/-- Helper: the signed flag reported by extract_certificate is the presence
disjunction of the two reserved stream names. -/
theorem extract_certificate_signed (c : CfbContainer) :
    (extract_certificate c).signed = has_digital_signature c := by
  unfold extract_certificate has_digital_signature
  cases h1 : cfbExists c DIGITAL_SIGNATURE_STREAM_NAME <;>
    cases h2 : cfbExists c MSI_DIGITAL_SIGNATURE_EX_STREAM_NAME <;>
    simp [h1, h2]

/-- Claim C1: the metadata is_signed boolean is true iff at least one of the
two reserved signature streams is present at the container root, and
extract_certificate reports the package signed by the same presence
disjunction. -/
theorem is_signed_iff_signature_stream (p : MsiPackage) :
    ((get_metadata p).is_signed = true ↔
      (cfbExists p.container DIGITAL_SIGNATURE_STREAM_NAME = true ∨
       cfbExists p.container MSI_DIGITAL_SIGNATURE_EX_STREAM_NAME = true)) ∧
    (extract_certificate p.container).signed = (get_metadata p).is_signed := by
  rw [get_metadata_eq]
  refine ⟨?_, ?_⟩
  · simp [has_digital_signature]
  · exact extract_certificate_signed p.container

/-- Claim C1 witness: the theorem applied to a package holding only the
DigitalSignature stream. -/
theorem is_signed_iff_signature_stream_witness :
    (get_metadata dsOnlyPackage).is_signed = true :=
  (is_signed_iff_signature_stream dsOnlyPackage).1.mpr (Or.inl (by decide))

/-- Helper: sanitizing the reserved DigitalSignature stream name strips
exactly its leading control character. -/
theorem sanitize_digital_signature_name :
    sanitize_stream_name DIGITAL_SIGNATURE_STREAM_NAME =
      "DigitalSignature".toList := by
  decide

/-- Claim C3: when only the DigitalSignature reserved stream is present,
extract_certificate extracts exactly one payload, and its output name is
DigitalSignature with the control-character prefix stripped. -/
theorem extract_certificate_only_digital_signature (c : CfbContainer)
    (h1 : cfbExists c DIGITAL_SIGNATURE_STREAM_NAME = true)
    (h2 : cfbExists c MSI_DIGITAL_SIGNATURE_EX_STREAM_NAME = false) :
    (extract_certificate c).extracted.length = 1 ∧
    ∀ e ∈ (extract_certificate c).extracted,
      e.1 = "DigitalSignature".toList := by
  obtain ⟨bytes, hb⟩ : ∃ b, openStreamBytes c DIGITAL_SIGNATURE_STREAM_NAME = some b := by
    rcases ho : openStreamBytes c DIGITAL_SIGNATURE_STREAM_NAME with _ | b
    · rw [cfbExists, ho] at h1
      simp at h1
    · exact ⟨b, rfl⟩
  simp [extract_certificate, extract_cfb_stream, h1, h2, hb,
    sanitize_digital_signature_name]

/-- Claim C3 witness: the theorem applied to the signature-only container. -/
theorem extract_certificate_only_digital_signature_witness :
    (extract_certificate dsOnlyContainer).extracted.length = 1 ∧
    ∀ e ∈ (extract_certificate dsOnlyContainer).extracted,
      e.1 = "DigitalSignature".toList :=
  extract_certificate_only_digital_signature dsOnlyContainer (by decide) (by decide)

/-- Claim C4: with neither reserved signature stream present,
extract_certificate extracts nothing and returns normally with an unsigned
report; absence is not an error. -/
theorem extract_certificate_absent (c : CfbContainer)
    (h1 : cfbExists c DIGITAL_SIGNATURE_STREAM_NAME = false)
    (h2 : cfbExists c MSI_DIGITAL_SIGNATURE_EX_STREAM_NAME = false) :
    extract_certificate c = { signed := false, extracted := [] } := by
  simp [extract_certificate, h1, h2]

/-- Claim C4 witness: the theorem applied to the empty container. -/
theorem extract_certificate_absent_witness :
    extract_certificate emptyContainer = { signed := false, extracted := [] } :=
  extract_certificate_absent emptyContainer (by decide) (by decide)

/-- Claim C6 (amended): when no enumerated stream hits a failure inside
io::copy, every stream is attempted in order, a stream whose read or output
file creation fails is merely recorded as unsuccessful, and the enumeration
completes over all remaining streams. -/
theorem extractall_skips_failed_streams (fs : StreamFS) (ns : List (List Char))
    (h : ∀ n ∈ ns, fs.readable n = true →
      fs.creatable (sanitize_stream_name n) = true → fs.copy_ok n = true) :
    extractall fs ns =
      Except.ok (ns.map (fun n =>
        fs.readable n && fs.creatable (sanitize_stream_name n))) := by
  induction ns with
  | nil => rfl
  | cons n ns ih =>
    have hn := h n (List.mem_cons_self n ns)
    have hrest := fun m hm => h m (List.mem_cons_of_mem n hm)
    have hd : dump_stream fs n =
        Except.ok (fs.readable n && fs.creatable (sanitize_stream_name n)) := by
      unfold dump_stream
      cases hr : fs.readable n <;> cases hc : fs.creatable (sanitize_stream_name n)
      · simp
      · simp
      · simp
      · rw [if_pos rfl, if_pos rfl, if_pos (hn hr hc)]
        simp
    simp only [extractall, hd, ih hrest, List.map_cons]

/-- Claim C6 witness: the theorem applied to a file system where every
operation succeeds and one stream is enumerated. -/
theorem extractall_skips_failed_streams_witness :
    extractall allOkFS ["A".toList] =
      Except.ok (["A".toList].map (fun n =>
        allOkFS.readable n && allOkFS.creatable (sanitize_stream_name n))) :=
  extractall_skips_failed_streams allOkFS ["A".toList] (by decide)

/-- Claim C6 counterexample: stream A fails inside io::copy, which the source
turns into a process abort via expect; the enumeration result is the abort
and stream B, whose own dump would succeed, is never processed; one stream's
failure therefore can abort the enumeration of the others. -/
theorem extractall_copy_failure_aborts :
    dump_stream abortFS "B".toList = Except.ok true ∧
    extractall abortFS ["A".toList, "B".toList] =
      Except.error ExtractAbort.copyAbort := by
  exact ⟨rfl, rfl⟩

/-- Helper: the symbol value produced by natToB64 is below 64 and b64ToNat
maps it back to the original code point. -/
theorem natToB64_spec (c v : Nat) (h : natToB64 c = some v) :
    v < 64 ∧ b64ToNat v = c := by
  unfold natToB64 at h
  unfold b64ToNat
  split_ifs at h with h1 h2 h3 h4 h5 <;>
    (injection h with hv; subst hv; refine ⟨by omega, ?_⟩; split_ifs <;> omega)

/-- Helper: every code point of the identifier alphabet has a symbol value. -/
theorem natToB64_isSome (c : Nat) (h : isMsiIdentCodePoint c = true) :
    ∃ v, natToB64 c = some v := by
  rw [isMsiIdentCodePoint, decide_eq_true_eq] at h
  unfold natToB64
  split_ifs with h1 h2 h3 h4 h5
  · exact ⟨_, rfl⟩
  · exact ⟨_, rfl⟩
  · exact ⟨_, rfl⟩
  · exact ⟨_, rfl⟩
  · exact ⟨_, rfl⟩
  · omega

/-- Helper: names over the identifier alphabet always encode. -/
theorem msiEncodeBody_isSome :
    ∀ name : List Nat, (∀ c ∈ name, isMsiIdentCodePoint c = true) →
      ∃ b, msiEncodeBody name = some b
  | [] => fun _ => ⟨[], rfl⟩
  | [c] => fun h => by
      obtain ⟨v, hv⟩ := natToB64_isSome c (h c (by simp))
      exact ⟨[0x4800 + v], by simp [msiEncodeBody, hv]⟩
  | c1 :: c2 :: rest => fun h => by
      obtain ⟨v1, hv1⟩ := natToB64_isSome c1 (h c1 (by simp))
      obtain ⟨v2, hv2⟩ := natToB64_isSome c2 (h c2 (by simp))
      obtain ⟨r, hr⟩ := msiEncodeBody_isSome rest (fun c hc => h c (by simp [hc]))
      exact ⟨(0x3800 + v1 + 64 * v2) :: r, by simp [msiEncodeBody, hv1, hv2, hr]⟩

/-- Helper: decoding the encoded body recovers the original name. -/
theorem msiDecodeBody_encodeBody :
    ∀ name b : List Nat, msiEncodeBody name = some b → msiDecodeBody b = name
  | [], b, h => by
      simp only [msiEncodeBody, Option.some.injEq] at h
      subst h
      rfl
  | [c], b, h => by
      simp only [msiEncodeBody] at h
      rcases hv : natToB64 c with _ | v <;> rw [hv] at h
      · exact absurd h (by simp)
      · simp only [Option.some.injEq] at h
        subst h
        obtain ⟨hlt, hback⟩ := natToB64_spec c v hv
        simp only [msiDecodeBody]
        rw [if_neg (by omega), if_pos (by omega)]
        have e : 0x4800 + v - 0x4800 = v := by omega
        rw [e, hback]
  | c1 :: c2 :: rest, b, h => by
      simp only [msiEncodeBody] at h
      rcases hv1 : natToB64 c1 with _ | v1 <;> rw [hv1] at h
      · exact absurd h (by simp)
      rcases hv2 : natToB64 c2 with _ | v2 <;> rw [hv2] at h
      · exact absurd h (by simp)
      rcases hr : msiEncodeBody rest with _ | r <;> rw [hr] at h
      · exact absurd h (by simp)
      simp only [Option.some.injEq] at h
      subst h
      obtain ⟨hlt1, hb1⟩ := natToB64_spec c1 v1 hv1
      obtain ⟨hlt2, hb2⟩ := natToB64_spec c2 v2 hv2
      have hrest := msiDecodeBody_encodeBody rest r hr
      simp only [msiDecodeBody]
      rw [if_pos (by omega)]
      have e1 : (0x3800 + v1 + 64 * v2 - 0x3800) % 64 = v1 := by omega
      have e2 : (0x3800 + v1 + 64 * v2 - 0x3800) / 64 = v2 := by omega
      rw [e1, e2, hb1, hb2, hrest]

/-- Claim C7: for every identifier over the supported MSI alphabet
(A-Z a-z 0-9 . _), encoding succeeds and decoding the compressed stream name
yields the identifier back. -/
theorem msi_codec_round_trip (name : List Nat)
    (h : ∀ c ∈ name, isMsiIdentCodePoint c = true) :
    ∃ e, msiEncode name = some e ∧ msiDecode e = name := by
  obtain ⟨b, hb⟩ := msiEncodeBody_isSome name h
  refine ⟨0x4840 :: b, ?_, ?_⟩
  · rw [msiEncode, hb]
    rfl
  · simp only [msiDecode, if_pos rfl]
    exact msiDecodeBody_encodeBody name b hb

/-- Claim C7 witness: the theorem applied to the identifier Feature. -/
theorem msi_codec_round_trip_witness :
    ∃ e, msiEncode [70, 101, 97, 116, 117, 114, 101] = some e ∧
      msiDecode e = [70, 101, 97, 116, 117, 114, 101] :=
  msi_codec_round_trip [70, 101, 97, 116, 117, 114, 101] (by decide)

/-- Helper: a duplicate-free list of sector indices below the sector count is
no longer than the sector count. -/
theorem nodup_bounded_length (n : Nat) (l : List Nat) (hd : l.Nodup)
    (hb : ∀ x ∈ l, x < n) : l.length ≤ n := by
  classical
  have h1 : l.toFinset.card = l.length := List.toFinset_card_of_nodup hd
  have h2 : l.toFinset ⊆ Finset.range n := by
    intro x hx
    rw [List.mem_toFinset] at hx
    exact Finset.mem_range.mpr (hb x hx)
  have h3 := Finset.card_le_card h2
  rw [h1, Finset.card_range] at h3
  exact h3

/-- Helper invariant for the chain walker: starting from a duplicate-free
visited set of in-range sectors and enough fuel, the walk never exhausts its
fuel, and a successful walk visits at most the container's sector count. -/
theorem walkChainAux_spec (fat : List Nat) :
    ∀ (fuel idx : Nat) (visited : List Nat), visited.Nodup →
      (∀ x ∈ visited, x < fat.length) →
      fat.length + 1 ≤ fuel + visited.length →
      walkChainAux fat fuel idx visited ≠ Except.error CfbError.FuelExhausted ∧
      (∀ l, walkChainAux fat fuel idx visited = Except.ok l →
        l.length ≤ fat.length) := by
  intro fuel
  induction fuel with
  | zero =>
    intro idx visited hd hb hf
    have hlen := nodup_bounded_length fat.length visited hd hb
    exact absurd hf (by omega)
  | succ fuel ih =>
    intro idx visited hd hb hf
    simp only [walkChainAux]
    by_cases he : idx = ENDOFCHAIN
    · rw [if_pos he]
      refine ⟨by simp, ?_⟩
      intro l hl
      have hlv : l = visited.reverse := by
        injection hl with h
        exact h.symm
      subst hlv
      rw [List.length_reverse]
      exact nodup_bounded_length fat.length visited hd hb
    · rw [if_neg he]
      by_cases hlt : idx < fat.length
      · rw [dif_pos hlt]
        by_cases hm : idx ∈ visited
        · rw [if_pos hm]
          exact ⟨by simp, fun l hl => by simp at hl⟩
        · rw [if_neg hm]
          refine ih (fat.get ⟨idx, hlt⟩) (idx :: visited) ?_ ?_ ?_
          · exact List.nodup_cons.mpr ⟨hm, hd⟩
          · intro x hx
            rcases List.mem_cons.mp hx with rfl | hx
            · exact hlt
            · exact hb x hx
          · rw [List.length_cons]
            omega
      · rw [dif_neg hlt]
        exact ⟨by simp, fun l hl => by simp at hl⟩

/-- Claim C8: for every FAT and starting sector, traversal never runs out of
its fuel bound of one hop per sector, a successful traversal visits at most
the container's total sector count of sectors, and on the FAT 0 -> 1 -> 0,
whose chain revisits sector 0, traversal fails with ChainCycle instead of
looping. -/
theorem walkChain_bounded_and_cycle :
    (∀ (fat : List Nat) (start : Nat),
      walkChain fat start ≠ Except.error CfbError.FuelExhausted ∧
      ∀ l, walkChain fat start = Except.ok l → l.length ≤ fat.length) ∧
    walkChain [1, 0] 0 = Except.error CfbError.ChainCycle := by
  constructor
  · intro fat start
    exact walkChainAux_spec fat (fat.length + 1) start [] List.nodup_nil
      (by simp) (by simp)
  · rfl

/-- Claim C8 witness: the theorem applied to the one-sector chain that ends
immediately, whose traversal visits one sector. -/
theorem walkChain_bounded_and_cycle_witness :
    walkChain [ENDOFCHAIN] 0 ≠ Except.error CfbError.FuelExhausted ∧
    ([0] : List Nat).length ≤ ([ENDOFCHAIN] : List Nat).length :=
  ⟨(walkChain_bounded_and_cycle.1 [ENDOFCHAIN] 0).1,
   (walkChain_bounded_and_cycle.1 [ENDOFCHAIN] 0).2 [0] rfl⟩

/-- Claim C9: every row of every table produced by list_tables has exactly as
many rendered values as the table has columns. The hypothesis is the row
invariant of the msi library's row decoder (modelled from the spec, §3: the
row decoder is not part of src/). -/
theorem list_tables_row_width (p : MsiPackage)
    (h : ∀ t ∈ p.tables, ∀ r ∈ t.rows, r.length = t.columns.length) :
    ∀ t ∈ list_tables p, ∀ r ∈ t.rows, r.length = t.columns.length := by
  intro t ht r hr
  rw [list_tables] at ht
  obtain ⟨t0, ht0, rfl⟩ := List.mem_map.mp ht
  simp only at hr
  obtain ⟨r0, hr0, rfl⟩ := List.mem_map.mp hr
  simp only [List.length_map]
  exact h t0 ht0 r0 hr0

/-- Claim C9 witness: the theorem applied to the Feature sample package and
the first rendered row of its listed table. -/
theorem list_tables_row_width_witness :
    (["A".toList, "B".toList] : List (List Char)).length =
      (["Feature".toList, "Title".toList] : List (List Char)).length :=
  list_tables_row_width featurePackage (by decide)
    { name := "Feature".toList
      columns := ["Feature".toList, "Title".toList]
      rows := [["A".toList, "B".toList], ["C".toList, []]] }
    (by decide) ["A".toList, "B".toList] (by decide)

end Msiparse
